import Mathlib

/-!
Verification development for the news-swipe API repository.

The development shallowly embeds the JavaScript source:
* `src/ingest.js` — the corpus ingestion pipeline, in two variants
  (direct embedding endpoint, and a Gradio-hosted endpoint); both share
  the category loop, the HTTP-429 handling and the `ON CONFLICT DO
  NOTHING` insert.
* the Express server — `averageVectors`, `shuffleArray`, the
  `GET /api/feed` handler (smart 7 + dumb 3 blend, cold-start path) and
  the `POST /api/swipe` handler.

JavaScript numbers are modelled as rationals (`ℚ`), strings as Lean
`String`s (or `List Char` where character-level parsing matters),
JSON/JS runtime values as the inductive `JsVal`, and thrown exceptions
as `Except Unit`.  External nondeterminism (the GNews fetch, the
embedding provider, the datastore's `ORDER BY RANDOM()` and `Math.random`)
is passed in as explicit function arguments.
-/

/- ### JavaScript runtime values -/

/-- A JavaScript/JSON runtime value as handled by the Node source:
`null`, `undefined`, booleans, numbers (modelled as `ℚ`), strings,
arrays and plain objects. -/
inductive JsVal where
  | null
  | undef
  | bool (b : Bool)
  | num (q : ℚ)
  | str (s : String)
  | arr (elems : List JsVal)
  | obj (fields : List (String × JsVal))

/-- JavaScript truthiness test (`!v` is `jsFalsy v`).  `0`, the empty
string, `null`, `undefined` and `false` are falsy; every object and
array is truthy. -/
def jsFalsy : JsVal → Bool
  | JsVal.null => true
  | JsVal.undef => true
  | JsVal.bool b => !b
  | JsVal.num q => q == 0
  | JsVal.str s => s == ""
  | JsVal.arr _ => false
  | JsVal.obj _ => false

/-- Strict equality against `undefined` (JS `v === undefined`). -/
def isUndef : JsVal → Bool
  | JsVal.undef => true
  | _ => false

/-- Property lookup inside a JS object's field list; a missing key
yields `undefined`, as in JavaScript. -/
def jsLookup (fields : List (String × JsVal)) (k : String) : JsVal :=
  match fields.find? (fun f => f.1 == k) with
  | some f => f.2
  | none => JsVal.undef

/-- JS property access `v.k`.  Accessing a property of `null` or
`undefined` throws a `TypeError` (modelled as `Except.error`); access
on an object looks the key up; access on any other primitive value
yields `undefined`. -/
def jsGetField : JsVal → String → Except Unit JsVal
  | JsVal.null, _ => Except.error ()
  | JsVal.undef, _ => Except.error ()
  | JsVal.obj fields, k => Except.ok (jsLookup fields k)
  | _, _ => Except.ok JsVal.undef

/-- JS index access `v[i]`.  Indexing `null`/`undefined` throws; an
array yields the element or `undefined` past the end; any other value
yields `undefined`. -/
def jsIndex : JsVal → Nat → Except Unit JsVal
  | JsVal.null, _ => Except.error ()
  | JsVal.undef, _ => Except.error ()
  | JsVal.arr elems, i => Except.ok ((elems[i]?).getD JsVal.undef)
  | _, _ => Except.ok JsVal.undef

/-- Does a JS value hold a vector of floats (an array whose every
element is a number)?  This is the validation the spec requires of the
embedding adapter. -/
def isFloatVector : JsVal → Bool
  | JsVal.arr elems => elems.all (fun v => match v with | JsVal.num _ => true | _ => false)
  | _ => false

/-- JS `text.trim().length === 0`: every character of the string is
whitespace (true in particular for the empty string). -/
def isBlank (text : String) : Bool :=
  text.data.all (fun c => c.isWhitespace)

/-- The adapter's input guard `!text || text.trim().length === 0`
(a falsy string is the empty string). -/
def jsTextBlank (text : String) : Bool :=
  text == "" || isBlank text

/- ### `getEmbedding` — src/ingest.js lines 29-40 (direct endpoint)

```js
const getEmbedding = async (text) => {
  if (!text || text.trim().length === 0) { return null; }
  try {
    const response = await axios.post(ML_API_URL, { text });
    return response.data.embedding;
  } catch (err) { ...; return null; }
};
```
`provider text` models `axios.post` returning the parsed response body
`response.data`; axios throws (`Except.error`) on transport failure and
on every non-2xx status. -/

def getEmbedding (provider : String → Except Unit JsVal) (text : String) : JsVal :=
  if jsTextBlank text then JsVal.null
  else
    match provider text with
    | Except.error _ => JsVal.null
    | Except.ok body =>
      match jsGetField body "embedding" with
      | Except.ok v => v
      | Except.error _ => JsVal.null

/- ### `getEmbedding` — src/ingest.js lines 174-197 (Gradio variant)

```js
const response = await axios.post(GRADIO_PREDICT_URL, { data: [text] });
const embeddingData = response.data.data[0];
return embeddingData.embedding;
```
with the same blank-input early return and catch-all returning null. -/

def getEmbeddingGradio (provider : String → Except Unit JsVal) (text : String) : JsVal :=
  if jsTextBlank text then JsVal.null
  else
    match provider text with
    | Except.error _ => JsVal.null
    | Except.ok body =>
      match jsGetField body "data" with
      | Except.error _ => JsVal.null
      | Except.ok d =>
        match jsIndex d 0 with
        | Except.error _ => JsVal.null
        | Except.ok e0 =>
          match jsGetField e0 "embedding" with
          | Except.ok v => v
          | Except.error _ => JsVal.null

/- ### Textual embedding codec

Ingestion persists an embedding as `[x1,x2,...]`
(src/ingest.js line 105: `const embeddingString = [${embedding.join(',')}]`)
and the taste-profile reader parses that text back with `JSON.parse`
(server `averageVectors`, line 27).  Numbers are modelled as rationals;
an ECMAScript double always prints as a finite decimal string that
parses back to the same double, so the number-level codec is modelled
by exact decimal printing/parsing of rationals with finite decimal
expansion. -/

/-- The digit character for `d` (`0 ≤ d ≤ 9` gives `'0'`..`'9'`). -/
def digChar (d : Nat) : Char := Char.ofNat (48 + d)

/-- The numeric value of a digit character. -/
def digVal (c : Char) : Nat := c.toNat - 48

/-- Is `c` one of `'0'`..`'9'`? -/
def isDigitChar (c : Char) : Bool := 48 ≤ c.toNat && c.toNat ≤ 57

/-- Little-endian base-10 digits, by structural recursion on a fuel
bound (`fuel ≥ n` suffices, since the argument shrinks by division). -/
def digitsFuel : Nat → Nat → List Nat
  | 0, _ => []
  | fuel + 1, n => if n = 0 then [] else n % 10 :: digitsFuel fuel (n / 10)

/-- Little-endian base-10 digits of `n` (empty for zero). -/
def natDigits (n : Nat) : List Nat := digitsFuel n n

/-- Decimal digit string of a natural number (`"0"` for zero). -/
def natToChars (n : Nat) : List Char :=
  if n = 0 then ['0'] else ((natDigits n).map digChar).reverse

/-- Parse a non-empty all-digit string back to a natural number. -/
def natFromChars (cs : List Char) : Option Nat :=
  if cs ≠ [] ∧ cs.all isDigitChar then
    some (Nat.ofDigits 10 ((cs.map digVal).reverse))
  else none

/-- Split a character list at every occurrence of `sep` (the list of
pieces is never empty). -/
def splitOnChar (sep : Char) : List Char → List (List Char)
  | [] => [[]]
  | c :: rest =>
    let ps := splitOnChar sep rest
    if c = sep then [] :: ps
    else
      match ps with
      | p :: ps2 => (c :: p) :: ps2
      | [] => [[c]]

/-- `Array.prototype.join(',')`: interleave `','` between the pieces. -/
def joinComma : List (List Char) → List Char
  | [] => []
  | [p] => p
  | p :: ps => p ++ ',' :: joinComma ps

/-- The fractional digits of `m` printed with exactly `width` digits,
zero-padded on the left. -/
def fracChars (width : Nat) (m : Nat) : List Char :=
  List.replicate (width - (natToChars m).length) '0' ++ natToChars m

/-- Smallest exponent `k ≤ den` with `den ∣ 10^k`, when one exists. -/
def decExp (den : Nat) : Option Nat :=
  (List.range (den + 1)).find? (fun k => 10 ^ k % den == 0)

/-- Decimal rendering of a non-negative rational with finite decimal
expansion, e.g. `1/8 ↦ "0.125"`, `3 ↦ "3"`.  (JS prints a double as its
shortest decimal form that round-trips; any rational whose denominator
is not of the form `2^a·5^b` is unreachable from a double and rendered
as a placeholder.) -/
def encodePos (q : ℚ) : List Char :=
  match decExp q.den with
  | none => ['N']
  | some k =>
    let m := q.num.toNat * (10 ^ k / q.den)
    if k = 0 then natToChars m
    else natToChars (m / 10 ^ k) ++ '.' :: fracChars k (m % 10 ^ k)

/-- Decimal rendering of a rational (ECMAScript `String(number)`
restricted to finite-decimal rationals). -/
def encodeNum (q : ℚ) : List Char :=
  if q < 0 then '-' :: encodePos (-q) else encodePos q

/-- Parse an unsigned decimal numeral, with an optional fractional
part, as `JSON.parse` does for a number token. -/
def parseNumPos (cs : List Char) : Option ℚ :=
  match splitOnChar '.' cs with
  | [ds] => (natFromChars ds).map (fun n => (n : ℚ))
  | [ds, fs] =>
    match natFromChars ds, natFromChars fs with
    | some n, some f => some ((n : ℚ) + (f : ℚ) / 10 ^ fs.length)
    | _, _ => none
  | _ => none

/-- Parse a (possibly negative) decimal numeral. -/
def parseNum (cs : List Char) : Option ℚ :=
  match cs with
  | [] => none
  | c :: rest =>
    if c = '-' then (parseNumPos rest).map (fun q => -q)
    else parseNumPos (c :: rest)

/-- The text ingestion writes for an embedding vector:
`'[' + embedding.join(',') + ']'` (src/ingest.js line 105). -/
def encodeVec (xs : List ℚ) : List Char :=
  '[' :: joinComma (xs.map encodeNum) ++ [']']

/-- `JSON.parse` of a bracketed comma-separated array of numbers, as the
taste-profile reader applies to a stored embedding. -/
def parseVec (cs : List Char) : Option (List ℚ) :=
  match cs with
  | [] => none
  | c :: rest =>
    if c = '[' then
      if rest.getLast? = some ']' then
        let inner := rest.dropLast
        if inner = [] then some []
        else (splitOnChar ',' inner).mapM parseNum
      else none
    else none

/-- A rational with finite decimal expansion (this covers the exact
value of every finite ECMAScript double, whose denominator is a power
of two). -/
def finiteDecimal (q : ℚ) : Prop := q.den ∣ 10 ^ q.den

instance (q : ℚ) : Decidable (finiteDecimal q) := by
  unfold finiteDecimal; infer_instance

/- ### Corpus ingestion pipeline — src/ingest.js lines 45-145 -/

/-- One candidate headline as returned by the GNews API.  The source
tests `!article.title || !article.image || !article.description`
(line 84); a missing field is modelled as the empty string, which is
exactly the JS falsy case for strings. -/
structure GNewsArticle where
  title : String
  description : String
  image : String
  url : String
  sourceName : String
  publishedAt : String
deriving DecidableEq, Repr

/-- A persisted row of the `articles` table as ingestion writes it
(lines 97-115); the embedding column holds the bracketed text. -/
structure Row where
  title : String
  description : String
  article_url : String
  image_url : String
  source_name : String
  published_at : String
  embedding : List Char
deriving DecidableEq, Repr

/-- Does the corpus already contain a row with this URL? -/
def hasUrl (db : List Row) (u : String) : Bool :=
  db.any (fun x => x.article_url == u)

/-- `INSERT ... ON CONFLICT (article_url) DO NOTHING` (lines 97-103):
a duplicate URL leaves the table unchanged with `rowCount = 0`; a new
URL appends the row with `rowCount = 1`. -/
def insertRow (db : List Row) (r : Row) : List Row × Nat :=
  if hasUrl db r.article_url then (db, 0) else (db ++ [r], 1)

/-- The row a candidate article would produce: `none` when the
candidate is skipped (missing title/image/description, line 84, or
absent embedding, line 92), otherwise the row built at lines 105-115.
`embed` is the already-adapted embedding call: `none` models the
adapter's null/absent result. -/
def rowOf (embed : String → Option (List ℚ)) (a : GNewsArticle) : Option Row :=
  if a.title = "" ∨ a.image = "" ∨ a.description = "" then none
  else
    (embed (a.title ++ ". " ++ a.description)).map
      (fun emb => ⟨a.title, a.description, a.url, a.image, a.sourceName,
                   a.publishedAt, encodeVec emb⟩)

/-- Process the candidate list of one category (the inner loop, lines
83-121), returning the new corpus and the number of genuinely new rows
(`categoryProcessedCount`, incremented only when `rowCount > 0`). -/
def processArticles (embed : String → Option (List ℚ)) :
    List GNewsArticle → List Row → List Row × Nat
  | [], db => (db, 0)
  | a :: arts, db =>
    match rowOf embed a with
    | none => processArticles embed arts db
    | some r =>
      let p := insertRow db r
      let rest := processArticles embed arts p.1
      (rest.1, p.2 + rest.2)

/-- Outcome of the per-category GNews fetch (lines 63-71): a parsed
article list, an HTTP 429, or any other axios error.  A response with
no `articles` field is `ok []` (the `!articles` guard, line 75). -/
inductive FetchOutcome where
  | ok (articles : List GNewsArticle)
  | rateLimited
  | fetchError
deriving DecidableEq

/-- How the category loop ended: all categories done, `break` on a 429
(line 68), or an exception rethrown out of the loop (line 70). -/
inductive LoopExit where
  | completed
  | brokeRateLimit
  | threw
deriving DecidableEq, Repr

/-- Result of the category loop: final corpus, total of newly inserted
rows, the categories for which a fetch was issued (in order), and how
the loop ended. -/
structure LoopResult where
  db : List Row
  total : Nat
  attempted : List String
  exitKind : LoopExit
deriving DecidableEq, Repr

/-- The `for (const category of CATEGORIES)` loop (lines 58-130).
A 429 breaks out of the loop; any other fetch error propagates
(`throw err`, line 70) — both leave the corpus as already written. -/
def ingestLoop (fetch : String → FetchOutcome) (embed : String → Option (List ℚ)) :
    List String → List Row → LoopResult
  | [], db => ⟨db, 0, [], LoopExit.completed⟩
  | c :: cs, db =>
    match fetch c with
    | FetchOutcome.rateLimited => ⟨db, 0, [c], LoopExit.brokeRateLimit⟩
    | FetchOutcome.fetchError => ⟨db, 0, [c], LoopExit.threw⟩
    | FetchOutcome.ok arts =>
      let p := processArticles embed arts db
      let rest := ingestLoop fetch embed cs p.1
      ⟨rest.db, p.2 + rest.total, c :: rest.attempted, rest.exitKind⟩

/-- The fixed category list (line 10). -/
def CATEGORIES : List String :=
  ["general", "technology", "science", "sports", "entertainment"]

/-- Observable outcome of one run of the ingestion script.
`stoppedBy = none` records the early `return` on missing
configuration (lines 48-51), before any fetch. -/
structure IngestRun where
  exitCode : Nat
  db : List Row
  total : Nat
  attempted : List String
  stoppedBy : Option LoopExit
deriving DecidableEq, Repr

/-- `ingestArticles` (lines 45-142).  A missing API key (the JS-falsy
test `!GNEWS_API_KEY`, i.e. the empty string) logs and returns.  The
whole category loop sits in a `try { ... } catch (err) { log }`
(lines 57-136), so a rethrown fetch error is swallowed and execution
falls through to the summary and `pool.end()`.  No code path calls
`process.exit` or lets an exception escape, so the process exit code
is 0 on every modelled path. -/
def ingestArticles (key : String) (fetch : String → FetchOutcome)
    (embed : String → Option (List ℚ)) (db0 : List Row) : IngestRun :=
  if key = "" then ⟨0, db0, 0, [], none⟩
  else
    let r := ingestLoop fetch embed CATEGORIES db0
    ⟨0, r.db, r.total, r.attempted, some r.exitKind⟩

/- ### The feed endpoint — server source (src/unnamed/part_000) -/

/-- An `articles` row as the feed handler sees it.  Only the primary
key and the embedding take part in the handler's logic; the text
columns are inert payload carried through `SELECT` unchanged and are
omitted here. -/
structure Article where
  id : Nat
  embedding : List ℚ
deriving DecidableEq, Repr

/-- A `user_swipes` row. -/
structure Swipe where
  user_id : Nat
  article_id : Nat
  liked : Bool
  swipe_time : Nat
deriving DecidableEq, Repr

/-- Stable insertion of `a` into a sorted list under the boolean
comparison `le` (model of the datastore's `ORDER BY`). -/
def insertSorted (le : α → α → Bool) (a : α) : List α → List α
  | [] => [a]
  | b :: l => if le a b then a :: b :: l else b :: insertSorted le a l

/-- Stable sort under the boolean comparison `le` (model of the
datastore's `ORDER BY`; SQL fixes no tie order, and any stable sort is
a faithful model). -/
def sortBy (le : α → α → Bool) : List α → List α
  | [] => []
  | a :: l => insertSorted le a (sortBy le l)

/-- `WHERE us.user_id = $1 AND us.liked = true` (taste query,
lines 118-125). -/
def likedSwipes (swipes : List Swipe) (uid : Nat) : List Swipe :=
  swipes.filter (fun s => s.user_id == uid && s.liked)

/-- The taste query (lines 118-126): embeddings of the user's liked
articles, joined on `a.id = us.article_id`, most recent swipe first,
`LIMIT 3` (`TASTE_PROFILE_SIZE`). -/
def tasteQuery (articles : List Article) (swipes : List Swipe) (uid : Nat) :
    List (List ℚ) :=
  ((sortBy (fun s t => decide (t.swipe_time ≤ s.swipe_time)) (likedSwipes swipes uid)).filterMap
    (fun s => (articles.find? (fun a => a.id == s.article_id)).map (fun a => a.embedding))).take 3

/-- One accumulation step of `averageVectors`' summing loops
(lines 32-36): element-wise add `v` into the running total, over the
fixed index range `0..d-1` (`d` = `vectorLength`, the first vector's
length; an out-of-range read is modelled as 0 — in JS it would poison
the sum with `NaN`, and the corpus schema makes all dimensions equal). -/
def addInto (d : Nat) (acc v : List ℚ) : List ℚ :=
  (List.range d).map (fun i => acc.getD i 0 + v.getD i 0)

/-- `averageVectors` (server lines 25-41), on already-parsed vectors:
`null` for an empty list, otherwise the element-wise sum divided by the
number of vectors. -/
def averageVectors (vectors : List (List ℚ)) : Option (List ℚ) :=
  match vectors with
  | [] => none
  | v0 :: _ =>
    let d := v0.length
    let n := vectors.length
    let sums := vectors.foldl (addInto d) (List.replicate d 0)
    some (sums.map (fun s => s / (n : ℚ)))

/-- Article ids the user has ever swiped
(`SELECT article_id FROM user_swipes WHERE user_id = $1`). -/
def swipedIds (swipes : List Swipe) (uid : Nat) : List Nat :=
  (swipes.filter (fun s => s.user_id == uid)).map (fun s => s.article_id)

/-- `WHERE id NOT IN (SELECT article_id FROM user_swipes WHERE
user_id = $1)` — the articles the user has never swiped. -/
def unswipedArticles (articles : List Article) (swipes : List Swipe) (uid : Nat) :
    List Article :=
  articles.filter (fun a => !(swipedIds swipes uid).contains a.id)

/-- The smart query (lines 139-146): unswiped articles ordered by
descending similarity, `LIMIT 7` (`SMART_FEED_SIZE`).  `sim` stands for
the SQL expression `1 - (embedding <=> $2)`; the `<=>` operator is the
datastore's native vector-distance operator, an external collaborator,
so it enters the model as a parameter. -/
def smartQuery (articles : List Article) (swipes : List Swipe) (uid : Nat)
    (sim : List ℚ → ℚ) : List Article :=
  (sortBy (fun a b => decide (sim b.embedding ≤ sim a.embedding))
    (unswipedArticles articles swipes uid)).take 7

/-- The hand-rolled exclusion list of the dumb query (lines 151-152):
the smart ids, or the sentinel `[0]` when no smart article exists
(`smartArticleIds.length > 0 ? smartArticleIds.join(',') : '0'`). -/
def dumbExclusion (smartIds : List Nat) : List Nat :=
  if smartIds.isEmpty then [0] else smartIds

/-- The dumb query (lines 154-161): unswiped articles not in the smart
subset, in randomized order, `LIMIT 3` (`DUMB_FEED_SIZE`).  `rand`
stands for the datastore's `ORDER BY RANDOM()`. -/
def dumbQuery (articles : List Article) (swipes : List Swipe) (uid : Nat)
    (smartIds : List Nat) (rand : List Article → List Article) : List Article :=
  (rand ((unswipedArticles articles swipes uid).filter
    (fun a => !(dumbExclusion smartIds).contains a.id))).take 3

/-- Swap the elements at positions `i` and `j`
(`[array[i], array[j]] = [array[j], array[i]]`, line 47); out-of-range
positions leave the list unchanged (unreachable in the source loop). -/
def listSwap (l : List α) (i j : Nat) : List α :=
  match l[i]?, l[j]? with
  | some x, some y => (l.set i y).set j x
  | _, _ => l

/-- The Fisher–Yates loop of `shuffleArray` (lines 44-50): `i` runs
from `array.length - 1` down to `1`, and `js` supplies the successive
draws `Math.floor(Math.random() * (i + 1))`. -/
def shuffleGo : List Nat → Nat → List α → List α
  | _, 0, l => l
  | [], _ + 1, l => l
  | j :: js, i + 1, l => shuffleGo js i (listSwap l (i + 1) j)

/-- `shuffleArray` (lines 44-50) with the random draws passed in. -/
def shuffleArray (js : List Nat) (l : List α) : List α :=
  shuffleGo js (l.length - 1) l

/-- The warm ("7+3 blended") branch of the feed handler
(lines 131-165): smart subset, then dumb subset excluding the smart
ids, then a full shuffle of the concatenation. -/
def warmFeed (articles : List Article) (swipes : List Swipe) (uid : Nat)
    (sim : List ℚ → ℚ) (rand : List Article → List Article) (js : List Nat) :
    List Article :=
  let smart := smartQuery articles swipes uid sim
  let dumb := dumbQuery articles swipes uid (smart.map (fun a => a.id)) rand
  shuffleArray js (smart ++ dumb)

/-- The cold-start branch (lines 167-177): up to 10 unswiped articles
in randomized order, no similarity ranking. -/
def coldFeed (articles : List Article) (swipes : List Swipe) (uid : Nat)
    (rand : List Article → List Article) : List Article :=
  (rand (unswipedArticles articles swipes uid)).take 10

/-- The `GET /api/feed` handler (lines 111-185).  `dist` is the
datastore's `<=>` vector-distance operator (external, hence a
parameter); `rand1`/`rand2` are the two `ORDER BY RANDOM()` orderings
and `js` the `Math.random` draws of the final shuffle.  The source
branches on `tasteResult.rows.length > 0` and only then calls
`averageVectors`; since `averageVectors` returns `null` exactly on an
empty row list, branching on its result is the same test. -/
def apiFeed (dist : List ℚ → List ℚ → ℚ) (articles : List Article)
    (swipes : List Swipe) (uid : Nat) (rand1 rand2 : List Article → List Article)
    (js : List Nat) : List Article :=
  match averageVectors (tasteQuery articles swipes uid) with
  | some taste =>
    warmFeed articles swipes uid (fun e => 1 - dist e taste) rand1 js
  | none => coldFeed articles swipes uid rand2

/- ### The swipe endpoint — server lines 188-204 -/

/-- A stored `user_swipes` row as `POST /api/swipe` writes it; the
`liked` column receives the request value verbatim. -/
structure SwipeRow where
  user_id : Nat
  article_id : JsVal
  liked : JsVal

/-- Response of `POST /api/swipe`. -/
inductive SwipeResp where
  | badRequest
  | created (row : SwipeRow)

/-- The `POST /api/swipe` handler (lines 188-204):
`if (!articleId || liked === undefined) return 400` — JS falsiness on
`articleId`, strict `undefined` check on `liked` — otherwise insert the
row and return it with 201. -/
def postSwipe (uid : Nat) (articleId liked : JsVal) (db : List SwipeRow) :
    SwipeResp × List SwipeRow :=
  if jsFalsy articleId || isUndef liked then (SwipeResp.badRequest, db)
  else
    let row : SwipeRow := ⟨uid, articleId, liked⟩
    (SwipeResp.created row, db ++ [row])

/- ### Concrete fixtures used by witnesses and counterexamples -/

/-- A provider whose response body carries a non-vector `embedding`. -/
def nonVectorProvider : String → Except Unit JsVal :=
  fun _ => Except.ok (JsVal.obj [("embedding", JsVal.str "oops")])

/-- A provider whose call always throws (transport failure / non-2xx). -/
def throwingProvider : String → Except Unit JsVal :=
  fun _ => Except.error ()

/-- A provider returning a well-formed embedding response. -/
def vectorProvider : String → Except Unit JsVal :=
  fun _ => Except.ok (JsVal.obj [("embedding", JsVal.arr [JsVal.num 1, JsVal.num 0])])

/-- A complete candidate article fixture. -/
def sampleArticle : GNewsArticle :=
  ⟨"T", "D", "I", "http://u.example/1", "S", "2024-01-01"⟩

/-- A second candidate article fixture with a distinct URL. -/
def sampleArticle2 : GNewsArticle :=
  ⟨"T2", "D2", "I2", "http://u.example/2", "S", "2024-01-02"⟩

/-- Fetch fixture: one article for `general`, HTTP 429 for
`technology`, empty results elsewhere. -/
def fetch429 : String → FetchOutcome :=
  fun c =>
    if c = "general" then FetchOutcome.ok [sampleArticle]
    else if c = "technology" then FetchOutcome.rateLimited
    else FetchOutcome.ok []

/-- Fetch fixture: one article for `general`, a non-429 error for
`technology`, empty results elsewhere. -/
def fetchErr : String → FetchOutcome :=
  fun c =>
    if c = "general" then FetchOutcome.ok [sampleArticle]
    else if c = "technology" then FetchOutcome.fetchError
    else FetchOutcome.ok []

/-- Fetch fixture: every category succeeds with the same two articles. -/
def fetchOk : String → FetchOutcome :=
  fun _ => FetchOutcome.ok [sampleArticle, sampleArticle2]

/-- Embedding-service fixture: every text embeds to `[1, 0]`. -/
def embedConst : String → Option (List ℚ) :=
  fun _ => some [1, 0]

/-- A persisted row fixture. -/
def sampleRow : Row :=
  ⟨"t", "d", "http://u.example/1", "i", "s", "p", ['x']⟩

/-- Corpus fixture for the feed endpoint. -/
def feedArticles : List Article :=
  [⟨1, [1, 0]⟩, ⟨2, [1, 1]⟩, ⟨3, [0, 1]⟩]

/-- Swipe-history fixture: user 5 has liked article 1. -/
def feedSwipes : List Swipe :=
  [⟨5, 1, true, 10⟩]

/-- Swipe-history fixture: user 6 has one swipe, a dislike. -/
def dislikeSwipes : List Swipe :=
  [⟨6, 1, false, 3⟩]

/-- Distance fixture standing for the external `<=>` operator. -/
def distConst : List ℚ → List ℚ → ℚ :=
  fun _ _ => 0

/-- The identity ordering, a permutation usable for `ORDER BY RANDOM()`. -/
def idPerm : List Article → List Article :=
  fun l => l

/- ### General lemmas: stable sort and Fisher–Yates shuffle -/

theorem insertSorted_perm (le : α → α → Bool) (a : α) :
    ∀ l : List α, (insertSorted le a l).Perm (a :: l)
  | [] => List.Perm.refl _
  | b :: l => by
    unfold insertSorted
    by_cases h : le a b = true
    · rw [if_pos h]
    · rw [if_neg h]
      exact ((insertSorted_perm le a l).cons b).trans (List.Perm.swap a b l)

theorem sortBy_perm (le : α → α → Bool) : ∀ l : List α, (sortBy le l).Perm l
  | [] => List.Perm.refl _
  | a :: l =>
    List.Perm.trans (insertSorted_perm le a (sortBy le l)) ((sortBy_perm le l).cons a)

theorem cons_set_perm :
    ∀ (t : List α) (k : Nat) (y a : α), t[k]? = some y → (y :: t.set k a).Perm (a :: t)
  | [], k, y, a, h => by simp at h
  | b :: t, 0, y, a, h => by
    have hb : b = y := by simpa using h
    rw [← hb]
    show (b :: a :: t).Perm (a :: b :: t)
    exact List.Perm.swap a b t
  | b :: t, k + 1, y, a, h => by
    have h2 : t[k]? = some y := by simpa using h
    have ih := cons_set_perm t k y a h2
    show (y :: b :: t.set k a).Perm (a :: b :: t)
    exact (List.Perm.swap b y _).trans ((ih.cons b).trans (List.Perm.swap a b t))

theorem set_set_perm :
    ∀ (l : List α) (i j : Nat) (x y : α), l[i]? = some x → l[j]? = some y →
      ((l.set i y).set j x).Perm l
  | [], i, j, x, y, hi, hj => by simp at hi
  | a :: l, 0, 0, x, y, hi, hj => by
    have hx : a = x := by simpa using hi
    have hy : a = y := by simpa using hj
    rw [← hx, ← hy]
    exact List.Perm.refl _
  | a :: l, 0, j + 1, x, y, hi, hj => by
    have hx : a = x := by simpa using hi
    have hj2 : l[j]? = some y := by simpa using hj
    rw [← hx]
    show (y :: l.set j a).Perm (a :: l)
    exact cons_set_perm l j y a hj2
  | a :: l, i + 1, 0, x, y, hi, hj => by
    have hy : a = y := by simpa using hj
    have hi2 : l[i]? = some x := by simpa using hi
    rw [← hy]
    show (x :: l.set i a).Perm (a :: l)
    exact cons_set_perm l i x a hi2
  | a :: l, i + 1, j + 1, x, y, hi, hj => by
    have hi2 : l[i]? = some x := by simpa using hi
    have hj2 : l[j]? = some y := by simpa using hj
    exact (set_set_perm l i j x y hi2 hj2).cons a

theorem listSwap_perm (l : List α) (i j : Nat) : (listSwap l i j).Perm l := by
  unfold listSwap
  cases hi : l[i]? with
  | none => exact List.Perm.refl l
  | some x =>
    cases hj : l[j]? with
    | none => exact List.Perm.refl l
    | some y => exact set_set_perm l i j x y hi hj

theorem shuffleGo_perm (js : List Nat) :
    ∀ (i : Nat) (l : List α), (shuffleGo js i l).Perm l := by
  induction js with
  | nil =>
    intro i l
    cases i with
    | zero => exact List.Perm.refl l
    | succ n => exact List.Perm.refl l
  | cons j js ih =>
    intro i l
    cases i with
    | zero => exact List.Perm.refl l
    | succ n => exact (ih n (listSwap l (n + 1) j)).trans (listSwap_perm l (n + 1) j)

theorem shuffleArray_perm (js : List Nat) (l : List α) : (shuffleArray js l).Perm l :=
  shuffleGo_perm js (l.length - 1) l

/- ### Lemmas for `averageVectors` -/

theorem addInto_length (d : Nat) (acc v : List ℚ) : (addInto d acc v).length = d := by
  simp [addInto]

theorem addInto_getD (d i : Nat) (hi : i < d) (acc v : List ℚ) :
    (addInto d acc v).getD i 0 = acc.getD i 0 + v.getD i 0 := by
  simp [addInto, List.getD_eq_getElem?_getD, List.getElem?_map, List.getElem?_range hi]

theorem foldl_addInto_getD (d i : Nat) (hi : i < d) :
    ∀ (vecs : List (List ℚ)) (acc : List ℚ),
      (vecs.foldl (addInto d) acc).getD i 0
        = acc.getD i 0 + (vecs.map (fun v => v.getD i 0)).sum
  | [], acc => by simp
  | v :: vecs, acc => by
    simp only [List.foldl_cons, List.map_cons, List.sum_cons]
    rw [foldl_addInto_getD d i hi vecs (addInto d acc v), addInto_getD d i hi]
    ring

theorem foldl_addInto_length (d : Nat) :
    ∀ (vecs : List (List ℚ)) (acc : List ℚ), acc.length = d →
      (vecs.foldl (addInto d) acc).length = d
  | [], _, h => h
  | v :: vecs, acc, h => by
    simp only [List.foldl_cons]
    exact foldl_addInto_length d vecs _ (addInto_length d acc v)

/-- C1: for a user with at least one liked article, `buildTaste` —
`averageVectors` over the embeddings of the up-to-3 most recently liked
articles — returns a vector whose dimensionality equals the embedding
dimensionality and whose i-th coordinate is the arithmetic mean of the
i-th coordinates of the contributing embeddings; on an empty embedding
list it returns null. -/
theorem averageVectors_mean_spec (vectors : List (List ℚ)) (d : Nat)
    (hd : ∀ v ∈ vectors, v.length = d) :
    (vectors = [] → averageVectors vectors = none) ∧
    (vectors ≠ [] → ∃ avg, averageVectors vectors = some avg ∧ avg.length = d ∧
      ∀ i, i < d →
        avg.getD i 0 = (vectors.map (fun v => v.getD i 0)).sum / (vectors.length : ℚ)) := by
  constructor
  · intro h; subst h; rfl
  · intro hne
    obtain ⟨v0, rest, rfl⟩ : ∃ v0 rest, vectors = v0 :: rest := by
      cases vectors with
      | nil => exact absurd rfl hne
      | cons v0 rest => exact ⟨v0, rest, rfl⟩
    have hd0 : v0.length = d := hd v0 (by simp)
    refine ⟨_, rfl, ?_, ?_⟩
    · simp only [List.length_map]
      rw [hd0]
      exact foldl_addInto_length d _ _ (by simp [hd0])
    · intro i hi
      have hlen : ((v0 :: rest).foldl (addInto v0.length) (List.replicate v0.length 0)).length = d := by
        rw [hd0]
        exact foldl_addInto_length d _ _ (by simp [hd0])
      have hsum : ((v0 :: rest).foldl (addInto v0.length) (List.replicate v0.length 0)).getD i 0
          = ((v0 :: rest).map (fun v => v.getD i 0)).sum := by
        rw [hd0] at *
        rw [foldl_addInto_getD d i hi]
        have : (List.replicate d (0 : ℚ)).getD i 0 = 0 := by
          rw [List.getD_eq_getElem?_getD, List.getElem?_replicate]
          simp [hi]
        rw [this, zero_add]
      rw [List.getD_eq_getElem?_getD, List.getElem?_map]
      cases hx : ((v0 :: rest).foldl (addInto v0.length) (List.replicate v0.length 0))[i]? with
      | none =>
        exfalso
        have := List.getElem?_eq_none_iff.mp hx
        omega
      | some x =>
        have : x = ((v0 :: rest).map (fun v => v.getD i 0)).sum := by
          rw [← hsum, List.getD_eq_getElem?_getD, hx]
          rfl
        simp [this]

/-- Witness for C1 at a concrete pair of 2-dimensional vectors. -/
theorem averageVectors_mean_spec_witness :
    (([[1, 3], [2, 5]] : List (List ℚ)) = [] →
      averageVectors [[1, 3], [2, 5]] = none) ∧
    (([[1, 3], [2, 5]] : List (List ℚ)) ≠ [] →
      ∃ avg, averageVectors [[1, 3], [2, 5]] = some avg ∧ avg.length = 2 ∧
        ∀ i, i < 2 →
          avg.getD i 0 = (([[1, 3], [2, 5]] : List (List ℚ)).map (fun v => v.getD i 0)).sum
            / (([[1, 3], [2, 5]] : List (List ℚ)).length : ℚ)) :=
  averageVectors_mean_spec [[1, 3], [2, 5]] 2 (by decide)

/-- C10: `POST /api/swipe` validates `articleId` by JS falsiness but
`liked` by a strict `undefined` check: a falsy `articleId` (0 or the
empty string) is rejected with 400 and no row is written, while
`liked` equal to `null` or `false` passes validation and the row is
written with that exact value. -/
theorem swipe_validation_spec (uid : Nat) (articleId liked : JsVal) (db : List SwipeRow) :
    (jsFalsy articleId = true →
      postSwipe uid articleId liked db = (SwipeResp.badRequest, db)) ∧
    (jsFalsy articleId = false → isUndef liked = false →
      postSwipe uid articleId liked db =
        (SwipeResp.created ⟨uid, articleId, liked⟩, db ++ [⟨uid, articleId, liked⟩])) ∧
    jsFalsy (JsVal.num 0) = true ∧
    jsFalsy (JsVal.str "") = true ∧
    isUndef JsVal.null = false ∧
    isUndef (JsVal.bool false) = false := by
  refine ⟨?_, ?_, by decide, rfl, rfl, rfl⟩
  · intro h
    simp [postSwipe, h]
  · intro h1 h2
    simp [postSwipe, h1, h2]

/-- Witness for C10: `articleId = 0` is rejected, `liked = null` and
`liked = false` are stored verbatim. -/
theorem swipe_validation_spec_witness :
    postSwipe 1 (JsVal.num 0) (JsVal.bool true) [] = (SwipeResp.badRequest, []) ∧
    postSwipe 1 (JsVal.num 7) JsVal.null [] =
      (SwipeResp.created ⟨1, JsVal.num 7, JsVal.null⟩, [⟨1, JsVal.num 7, JsVal.null⟩]) ∧
    postSwipe 1 (JsVal.num 7) (JsVal.bool false) [] =
      (SwipeResp.created ⟨1, JsVal.num 7, JsVal.bool false⟩,
        [⟨1, JsVal.num 7, JsVal.bool false⟩]) :=
  ⟨(swipe_validation_spec 1 (JsVal.num 0) (JsVal.bool true) []).1 (by decide),
   ((swipe_validation_spec 1 (JsVal.num 7) JsVal.null []).2).1 (by decide) rfl,
   ((swipe_validation_spec 1 (JsVal.num 7) (JsVal.bool false) []).2).1 (by decide) rfl⟩

/- ### C6 — the adapter performs no float-vector validation -/

/-- C6 counterexample: the claim says that for every provider response
whose body does not contain a vector of floats the adapter reports
absent; but with a body `{"embedding": "oops"}` `getEmbedding` returns
the string `"oops"` — a value that is not a float vector and not
absent (neither `null` nor `undefined`). -/
theorem getEmbedding_no_validation_counterexample :
    getEmbedding nonVectorProvider "hi" = JsVal.str "oops" ∧
    isFloatVector (JsVal.str "oops") = false ∧
    JsVal.str "oops" ≠ JsVal.null ∧
    JsVal.str "oops" ≠ JsVal.undef := by
  refine ⟨rfl, rfl, ?_, ?_⟩ <;> intro h <;> exact JsVal.noConfusion h

/-- C6 (amended): `getEmbedding` performs no validation of the
provider response: whenever the provider call succeeds with an object
body, it returns the body's `embedding` field verbatim — whatever that
value is, vector of floats or not; absent is reported only for blank
input or when the call or the field access throws. -/
theorem getEmbedding_returns_raw_field (provider : String → Except Unit JsVal)
    (text : String) (fields : List (String × JsVal))
    (hb : jsTextBlank text = false)
    (hp : provider text = Except.ok (JsVal.obj fields)) :
    getEmbedding provider text = jsLookup fields "embedding" := by
  simp [getEmbedding, hb, hp, jsGetField]

/-- Witness for the amended C6 at the concrete non-vector response. -/
theorem getEmbedding_returns_raw_field_witness :
    getEmbedding nonVectorProvider "hi" =
      jsLookup [("embedding", JsVal.str "oops")] "embedding" :=
  getEmbedding_returns_raw_field nonVectorProvider "hi"
    [("embedding", JsVal.str "oops")] (by decide) rfl

/- ### C9 — absent on blank input and on every provider-call failure -/

/-- C9: the adapter returns absent (`null`) for empty or
whitespace-only input independently of the provider (hence with no
network call), returns `null` whenever the provider call throws
(transport failure or non-2xx response, which axios both surface as a
thrown error), returns `null` whenever processing of the response body
throws, and never propagates an exception: its result is always either
`null` or the raw `embedding` field successfully read from the
response body.  Both ingest variants are covered. -/
theorem getEmbedding_absent_on_failure_spec :
    (∀ (p : String → Except Unit JsVal) (text : String), jsTextBlank text = true →
        getEmbedding p text = JsVal.null ∧ getEmbeddingGradio p text = JsVal.null) ∧
    (∀ (p p2 : String → Except Unit JsVal) (text : String), jsTextBlank text = true →
        getEmbedding p text = getEmbedding p2 text ∧
        getEmbeddingGradio p text = getEmbeddingGradio p2 text) ∧
    (∀ (p : String → Except Unit JsVal) (text : String), p text = Except.error () →
        getEmbedding p text = JsVal.null ∧ getEmbeddingGradio p text = JsVal.null) ∧
    (∀ (p : String → Except Unit JsVal) (text : String) (body : JsVal),
        p text = Except.ok body → jsGetField body "embedding" = Except.error () →
        getEmbedding p text = JsVal.null) ∧
    (∀ (p : String → Except Unit JsVal) (text : String),
        getEmbedding p text = JsVal.null ∨
          ∃ body, p text = Except.ok body ∧
            jsGetField body "embedding" = Except.ok (getEmbedding p text)) := by
  refine ⟨?_, ?_, ?_, ?_, ?_⟩
  · intro p text hb
    constructor <;> simp [getEmbedding, getEmbeddingGradio, hb]
  · intro p p2 text hb
    constructor <;> simp [getEmbedding, getEmbeddingGradio, hb]
  · intro p text hp
    by_cases hb : jsTextBlank text = true
    · constructor <;> simp [getEmbedding, getEmbeddingGradio, hb]
    · rw [Bool.not_eq_true] at hb
      constructor <;> simp [getEmbedding, getEmbeddingGradio, hb, hp]
  · intro p text body hp hfield
    by_cases hb : jsTextBlank text = true
    · simp [getEmbedding, hb]
    · rw [Bool.not_eq_true] at hb
      simp [getEmbedding, hb, hp, hfield]
  · intro p text
    by_cases hb : jsTextBlank text = true
    · left; simp [getEmbedding, hb]
    · rw [Bool.not_eq_true] at hb
      cases hp : p text with
      | error e => left; simp [getEmbedding, hb, hp]
      | ok body =>
        cases hfield : jsGetField body "embedding" with
        | error e => left; simp [getEmbedding, hb, hp, hfield]
        | ok v =>
          right
          refine ⟨body, rfl, ?_⟩
          simp [getEmbedding, hb, hp, hfield]

/-- Witness for C9: blank input yields `null` for both a throwing and
a well-formed provider; a throwing provider yields `null` on real
input; a null body (field access throws) yields `null`; and the
success path returns the raw field. -/
theorem getEmbedding_absent_on_failure_spec_witness :
    (getEmbedding throwingProvider " " = JsVal.null ∧
      getEmbeddingGradio throwingProvider " " = JsVal.null) ∧
    getEmbedding throwingProvider " " = getEmbedding vectorProvider " " ∧
    (getEmbedding throwingProvider "hi" = JsVal.null ∧
      getEmbeddingGradio throwingProvider "hi" = JsVal.null) ∧
    getEmbedding (fun _ => Except.ok JsVal.null) "hi" = JsVal.null :=
  ⟨getEmbedding_absent_on_failure_spec.1 throwingProvider " " (by decide),
   (getEmbedding_absent_on_failure_spec.2.1 throwingProvider vectorProvider " "
     (by decide)).1,
   getEmbedding_absent_on_failure_spec.2.2.1 throwingProvider "hi" rfl,
   getEmbedding_absent_on_failure_spec.2.2.2.1 (fun _ => Except.ok JsVal.null) "hi"
     JsVal.null rfl rfl⟩

/- ### C4 — the ingestion process exit code -/

/-- C4 counterexample: the claim says the ingestion process exits with
a non-zero code on a missing API key, on a rate-limit abort, and on any
other fetch error.  In the source none of these paths touches the
process exit code: the missing-key check just `return`s (lines 48-51),
a 429 `break`s out of the loop (line 68), and any other fetch error is
rethrown into the surrounding `try/catch` which only logs it
(lines 131-136); every path then reaches the summary and `pool.end()`,
so the process exits 0 in all three scenarios. -/
theorem ingest_exitCode_counterexample :
    (ingestArticles "" fetchOk embedConst []).exitCode = 0 ∧
    (ingestArticles "key" (fun _ => FetchOutcome.rateLimited) embedConst []).exitCode = 0 ∧
    (ingestArticles "key" (fun _ => FetchOutcome.fetchError) embedConst []).exitCode = 0 := by
  refine ⟨rfl, ?_, ?_⟩ <;> rfl

/-- C4 (amended): the ingestion process exits with code zero in every
case — missing configuration causes an early `return`, HTTP 429 breaks
the category loop, and any other fetch error is caught by the
top-level handler; no path sets a non-zero exit code. -/
theorem ingest_exitCode_always_zero (key : String) (fetch : String → FetchOutcome)
    (embed : String → Option (List ℚ)) (db0 : List Row) :
    (ingestArticles key fetch embed db0).exitCode = 0 := by
  unfold ingestArticles
  by_cases h : key = ""
  · rw [if_pos h]
  · rw [if_neg h]

/- ### Lemmas for the ingestion pipeline -/

theorem hasUrl_insertRow_self (db : List Row) (r : Row) :
    hasUrl (insertRow db r).1 r.article_url = true := by
  unfold insertRow
  by_cases h : hasUrl db r.article_url = true
  · rw [if_pos h]; exact h
  · rw [if_neg h]
    simp [hasUrl, List.any_append]

theorem hasUrl_insertRow_mono (db : List Row) (r : Row) (u : String)
    (h : hasUrl db u = true) : hasUrl (insertRow db r).1 u = true := by
  unfold insertRow
  by_cases hc : hasUrl db r.article_url = true
  · rw [if_pos hc]; exact h
  · rw [if_neg hc]
    rw [hasUrl] at h ⊢
    simp only [List.any_append, h, Bool.true_or]

theorem processArticles_mono (embed : String → Option (List ℚ)) (u : String) :
    ∀ (arts : List GNewsArticle) (db : List Row), hasUrl db u = true →
      hasUrl (processArticles embed arts db).1 u = true
  | [], _, h => h
  | a :: arts, db, h => by
    unfold processArticles
    cases hr : rowOf embed a with
    | none => exact processArticles_mono embed u arts db h
    | some r =>
      exact processArticles_mono embed u arts _ (hasUrl_insertRow_mono db r u h)

theorem processArticles_hasRow (embed : String → Option (List ℚ)) :
    ∀ (arts : List GNewsArticle) (db : List Row) (a : GNewsArticle) (r : Row),
      a ∈ arts → rowOf embed a = some r →
      hasUrl (processArticles embed arts db).1 r.article_url = true
  | [], _, a, _, ha, _ => absurd ha (List.not_mem_nil a)
  | b :: arts, db, a, r, ha, hr => by
    unfold processArticles
    rcases List.mem_cons.mp ha with hab | ha2
    · subst hab
      rw [hr]
      exact processArticles_mono embed _ arts _ (hasUrl_insertRow_self db r)
    · cases hb : rowOf embed b with
      | none => exact processArticles_hasRow embed arts db a r ha2 hr
      | some rb => exact processArticles_hasRow embed arts _ a r ha2 hr

theorem processArticles_replay (embed : String → Option (List ℚ)) :
    ∀ (arts : List GNewsArticle) (db2 : List Row),
      (∀ a ∈ arts, ∀ r, rowOf embed a = some r → hasUrl db2 r.article_url = true) →
      processArticles embed arts db2 = (db2, 0)
  | [], _, _ => rfl
  | a :: arts, db2, h => by
    unfold processArticles
    cases hr : rowOf embed a with
    | none =>
      exact processArticles_replay embed arts db2
        (fun b hb => h b (List.mem_cons_of_mem a hb))
    | some r =>
      have hin : hasUrl db2 r.article_url = true := h a (List.mem_cons_self a arts) r hr
      have hins : insertRow db2 r = (db2, 0) := by unfold insertRow; rw [if_pos hin]
      have hrest := processArticles_replay embed arts db2
        (fun b hb => h b (List.mem_cons_of_mem a hb))
      simp [hins, hrest]

theorem ingestLoop_mono (fetch : String → FetchOutcome)
    (embed : String → Option (List ℚ)) (u : String) :
    ∀ (cs : List String) (db : List Row), hasUrl db u = true →
      hasUrl (ingestLoop fetch embed cs db).db u = true
  | [], _, h => h
  | c :: cs, db, h => by
    unfold ingestLoop
    cases fetch c with
    | rateLimited => exact h
    | fetchError => exact h
    | ok arts =>
      exact ingestLoop_mono fetch embed u cs _ (processArticles_mono embed u arts db h)

theorem ingestLoop_replay (fetch : String → FetchOutcome)
    (embed : String → Option (List ℚ)) :
    ∀ (cs : List String) (db : List Row),
      ingestLoop fetch embed cs ((ingestLoop fetch embed cs db).db) =
        ⟨(ingestLoop fetch embed cs db).db, 0, (ingestLoop fetch embed cs db).attempted,
          (ingestLoop fetch embed cs db).exitKind⟩
  | [], _ => rfl
  | c :: cs, db => by
    cases hf : fetch c with
    | rateLimited => simp [ingestLoop, hf]
    | fetchError => simp [ingestLoop, hf]
    | ok arts =>
      have hrows : ∀ a ∈ arts, ∀ r, rowOf embed a = some r →
          hasUrl (ingestLoop fetch embed cs (processArticles embed arts db).1).db
            r.article_url = true := by
        intro a ha r hr
        exact ingestLoop_mono fetch embed _ cs _ (processArticles_hasRow embed arts db a r ha hr)
      have hP2 := processArticles_replay embed arts _ hrows
      have hIH := ingestLoop_replay fetch embed cs (processArticles embed arts db).1
      simp [ingestLoop, hf, hP2, hIH]

theorem ingestLoop_ok_attempted (fetch : String → FetchOutcome)
    (embed : String → Option (List ℚ)) :
    ∀ (cs : List String) (db : List Row),
      (∀ c2 ∈ cs, ∃ arts, fetch c2 = FetchOutcome.ok arts) →
      (ingestLoop fetch embed cs db).attempted = cs
  | [], _, _ => rfl
  | c :: cs, db, h => by
    obtain ⟨arts, ha⟩ := h c (List.mem_cons_self c cs)
    have ih := ingestLoop_ok_attempted fetch embed cs
      (processArticles embed arts db).1 (fun c2 h2 => h c2 (List.mem_cons_of_mem c h2))
    simp [ingestLoop, ha, ih]

theorem ingestLoop_break429 (fetch : String → FetchOutcome)
    (embed : String → Option (List ℚ)) (c : String)
    (hc : fetch c = FetchOutcome.rateLimited) :
    ∀ (pre post : List String) (db : List Row),
      (∀ c2 ∈ pre, ∃ arts, fetch c2 = FetchOutcome.ok arts) →
      ingestLoop fetch embed (pre ++ c :: post) db =
        ⟨(ingestLoop fetch embed pre db).db, (ingestLoop fetch embed pre db).total,
          (ingestLoop fetch embed pre db).attempted ++ [c], LoopExit.brokeRateLimit⟩
  | [], post, db, _ => by simp [ingestLoop, hc]
  | c0 :: pre, post, db, h => by
    obtain ⟨arts0, ha0⟩ := h c0 (List.mem_cons_self c0 pre)
    have ih := ingestLoop_break429 fetch embed c hc pre post
      (processArticles embed arts0 db).1 (fun c2 h2 => h c2 (List.mem_cons_of_mem c0 h2))
    simp only [List.cons_append, ingestLoop, ha0]
    simp [ih]

/-- C5: when the external source returns HTTP 429 for a category, the
run stops there: the loop exits through the rate-limit `break`, the
fetched categories are exactly the earlier ones plus the one whose
fetch attempt got the 429 (no data was retrieved for it, and no later
category is fetched or ingested), and the final corpus and new-row
total are exactly those of the run truncated to the earlier
categories — every article already inserted for them stays committed. -/
theorem ingest_rateLimit_abort_spec (key : String) (fetch : String → FetchOutcome)
    (embed : String → Option (List ℚ)) (db0 : List Row)
    (pre post : List String) (c : String)
    (hkey : key ≠ "")
    (hcats : CATEGORIES = pre ++ c :: post)
    (hpre : ∀ c2 ∈ pre, ∃ arts, fetch c2 = FetchOutcome.ok arts)
    (hc : fetch c = FetchOutcome.rateLimited) :
    (ingestArticles key fetch embed db0).stoppedBy = some LoopExit.brokeRateLimit ∧
    (ingestArticles key fetch embed db0).attempted = pre ++ [c] ∧
    (ingestArticles key fetch embed db0).db = (ingestLoop fetch embed pre db0).db ∧
    (ingestArticles key fetch embed db0).total = (ingestLoop fetch embed pre db0).total := by
  have h := ingestLoop_break429 fetch embed c hc pre post db0 hpre
  have hatt := ingestLoop_ok_attempted fetch embed pre db0 hpre
  unfold ingestArticles
  rw [if_neg hkey, hcats, h]
  exact ⟨rfl, by rw [hatt], rfl, rfl⟩

/-- Witness for C5: with the fixture fetch that 429s on `technology`
(the second of the five categories), the run stops with the rate-limit
exit, having attempted only `general` and `technology`, and keeps
exactly the rows written for `general`. -/
theorem ingest_rateLimit_abort_spec_witness :
    (ingestArticles "key" fetch429 embedConst []).stoppedBy
        = some LoopExit.brokeRateLimit ∧
    (ingestArticles "key" fetch429 embedConst []).attempted
        = ["general"] ++ ["technology"] ∧
    (ingestArticles "key" fetch429 embedConst []).db
        = (ingestLoop fetch429 embedConst ["general"] []).db ∧
    (ingestArticles "key" fetch429 embedConst []).total
        = (ingestLoop fetch429 embedConst ["general"] []).total :=
  ingest_rateLimit_abort_spec "key" fetch429 embedConst []
    ["general"] ["science", "sports", "entertainment"] "technology"
    (by decide) (by decide)
    (by
      intro c2 h2
      have hc2 : c2 = "general" := by simpa using h2
      subst hc2
      exact ⟨[sampleArticle], by decide⟩)
    (by decide)

/-- C7: re-running ingestion against the same upstream source and
embedding service leaves the corpus unchanged and reports zero new
rows, because every insert is keyed on URL uniqueness; and a duplicate
URL insert is a silent no-op (`rowCount = 0`), not an error. -/
theorem ingest_idempotent_spec (key : String) (fetch : String → FetchOutcome)
    (embed : String → Option (List ℚ)) (db0 : List Row) :
    ((ingestArticles key fetch embed (ingestArticles key fetch embed db0).db).db
        = (ingestArticles key fetch embed db0).db ∧
      (ingestArticles key fetch embed (ingestArticles key fetch embed db0).db).total = 0) ∧
    (∀ (db : List Row) (r : Row), hasUrl db r.article_url = true →
      insertRow db r = (db, 0)) := by
  constructor
  · by_cases h : key = ""
    · simp [ingestArticles, h]
    · have hrep := ingestLoop_replay fetch embed CATEGORIES db0
      simp [ingestArticles, h, hrep]
  · intro db r h
    unfold insertRow
    rw [if_pos h]

/-- Witness for C7 at the all-succeeding fixtures, plus the concrete
duplicate-URL no-op. -/
theorem ingest_idempotent_spec_witness :
    ((ingestArticles "key" fetchOk embedConst
          (ingestArticles "key" fetchOk embedConst []).db).db
        = (ingestArticles "key" fetchOk embedConst []).db ∧
      (ingestArticles "key" fetchOk embedConst
          (ingestArticles "key" fetchOk embedConst []).db).total = 0) ∧
    insertRow [sampleRow] sampleRow = ([sampleRow], 0) :=
  ⟨(ingest_idempotent_spec "key" fetchOk embedConst []).1,
   (ingest_idempotent_spec "key" fetchOk embedConst []).2 [sampleRow] sampleRow (by decide)⟩

/- ### Lemmas for the feed endpoint -/

theorem mem_unswiped_not_swiped (articles : List Article) (swipes : List Swipe)
    (uid : Nat) (a : Article) (h : a ∈ unswipedArticles articles swipes uid) :
    a.id ∉ swipedIds swipes uid := by
  have h2 := (List.mem_filter.mp h).2
  simp only [Bool.not_eq_true'] at h2
  intro hmem
  simp [List.contains, List.elem_iff] at h2
  exact h2 hmem

theorem dumbExclusion_spec (smartIds : List Nat) (x : Nat)
    (h : (!(dumbExclusion smartIds).contains x) = true) : x ∉ smartIds := by
  unfold dumbExclusion at h
  by_cases he : smartIds.isEmpty = true
  · rw [List.isEmpty_iff] at he
    subst he
    exact List.not_mem_nil x
  · rw [if_neg he] at h
    simp only [Bool.not_eq_true'] at h
    intro hmem
    simp [List.contains, List.elem_iff] at h
    exact h hmem

theorem mem_smartQuery_unswiped (articles : List Article) (swipes : List Swipe)
    (uid : Nat) (sim : List ℚ → ℚ) (a : Article)
    (h : a ∈ smartQuery articles swipes uid sim) :
    a ∈ unswipedArticles articles swipes uid := by
  unfold smartQuery at h
  exact ((sortBy_perm _ _).mem_iff).mp (List.take_subset 7 _ h)

theorem mem_dumbQuery (articles : List Article) (swipes : List Swipe) (uid : Nat)
    (smartIds : List Nat) (rand : List Article → List Article)
    (hrand : ∀ l, (rand l).Perm l) (a : Article)
    (h : a ∈ dumbQuery articles swipes uid smartIds rand) :
    a ∈ unswipedArticles articles swipes uid ∧
      (!(dumbExclusion smartIds).contains a.id) = true := by
  unfold dumbQuery at h
  have h3 := ((hrand _).mem_iff).mp (List.take_subset 3 _ h)
  exact ⟨(List.mem_filter.mp h3).1, (List.mem_filter.mp h3).2⟩

theorem unswiped_ids_nodup (articles : List Article) (swipes : List Swipe) (uid : Nat)
    (h : (articles.map (fun a => a.id)).Nodup) :
    ((unswipedArticles articles swipes uid).map (fun a => a.id)).Nodup :=
  List.Nodup.sublist (List.Sublist.map _ (List.filter_sublist articles)) h

theorem smart_ids_nodup (articles : List Article) (swipes : List Swipe) (uid : Nat)
    (sim : List ℚ → ℚ) (h : (articles.map (fun a => a.id)).Nodup) :
    ((smartQuery articles swipes uid sim).map (fun a => a.id)).Nodup := by
  have h1 := unswiped_ids_nodup articles swipes uid h
  have h2 : ((sortBy (fun a b => decide (sim b.embedding ≤ sim a.embedding))
      (unswipedArticles articles swipes uid)).map (fun a => a.id)).Nodup :=
    (((sortBy_perm _ _).map (fun a : Article => a.id)).nodup_iff).mpr h1
  exact List.Nodup.sublist (List.Sublist.map _ (List.take_sublist 7 _)) h2

theorem dumb_ids_nodup (articles : List Article) (swipes : List Swipe) (uid : Nat)
    (smartIds : List Nat) (rand : List Article → List Article)
    (hrand : ∀ l, (rand l).Perm l) (h : (articles.map (fun a => a.id)).Nodup) :
    ((dumbQuery articles swipes uid smartIds rand).map (fun a => a.id)).Nodup := by
  have h1 := unswiped_ids_nodup articles swipes uid h
  have h0 : (((unswipedArticles articles swipes uid).filter
      (fun a => !(dumbExclusion smartIds).contains a.id)).map (fun a => a.id)).Nodup :=
    List.Nodup.sublist (List.Sublist.map _ (List.filter_sublist _)) h1
  have h2 : ((rand ((unswipedArticles articles swipes uid).filter
      (fun a => !(dumbExclusion smartIds).contains a.id))).map (fun a => a.id)).Nodup :=
    (((hrand _).map (fun a : Article => a.id)).nodup_iff).mpr h0
  exact List.Nodup.sublist (List.Sublist.map _ (List.take_sublist 3 _)) h2

theorem tasteQuery_of_no_likes (articles : List Article) (swipes : List Swipe) (uid : Nat)
    (hno : ∀ s ∈ swipes, s.user_id = uid → s.liked = false) :
    tasteQuery articles swipes uid = [] := by
  have hl : likedSwipes swipes uid = [] := by
    rw [likedSwipes, List.filter_eq_nil_iff]
    intro s hs
    by_cases hu : s.user_id = uid
    · simp [hu, hno s hs hu]
    · simp [hu]
  rw [tasteQuery, hl]
  rfl

theorem tasteQuery_of_like (articles : List Article) (swipes : List Swipe) (uid : Nat)
    (hlike : ∃ s ∈ swipes, s.user_id = uid ∧ s.liked = true ∧
      ∃ a ∈ articles, a.id = s.article_id) :
    tasteQuery articles swipes uid ≠ [] := by
  obtain ⟨s, hs, hsu, hsl, a, ha, haid⟩ := hlike
  have hmem : s ∈ likedSwipes swipes uid :=
    List.mem_filter.mpr ⟨hs, by simp [hsu, hsl]⟩
  have hsort : s ∈ sortBy (fun s t => decide (t.swipe_time ≤ s.swipe_time))
      (likedSwipes swipes uid) := ((sortBy_perm _ _).mem_iff).mpr hmem
  have hfind : (articles.find? (fun a2 => a2.id == s.article_id)).isSome = true :=
    List.find?_isSome.mpr ⟨a, ha, by simp [haid]⟩
  obtain ⟨a2, hfa⟩ := Option.isSome_iff_exists.mp hfind
  have hfm : a2.embedding ∈ (sortBy (fun s t => decide (t.swipe_time ≤ s.swipe_time))
      (likedSwipes swipes uid)).filterMap
        (fun s => (articles.find? (fun a2 => a2.id == s.article_id)).map
          (fun a2 => a2.embedding)) :=
    List.mem_filterMap.mpr ⟨s, hsort, by rw [hfa]; rfl⟩
  unfold tasteQuery
  intro hnil
  rcases List.take_eq_nil_iff.mp hnil with h3 | hempty
  · exact absurd h3 (by decide)
  · rw [hempty] at hfm
    exact List.not_mem_nil _ hfm

/-- C2: for a user with at least one liked article, the warm path of
the feed handler returns at most 10 articles — a permutation (the
final shuffle) of at most 7 similarity-ranked articles followed by at
most 3 exploration articles whose ids are disjoint from the
similarity-ranked ones — with no duplicate article ids and containing
no article the user has already swiped. -/
theorem warmFeed_blend_spec (dist : List ℚ → List ℚ → ℚ) (articles : List Article)
    (swipes : List Swipe) (uid : Nat) (rand1 rand2 : List Article → List Article)
    (js : List Nat)
    (hnodup : (articles.map (fun a => a.id)).Nodup)
    (hrand1 : ∀ l, (rand1 l).Perm l)
    (hlike : ∃ s ∈ swipes, s.user_id = uid ∧ s.liked = true ∧
      ∃ a ∈ articles, a.id = s.article_id) :
    ∃ taste,
      averageVectors (tasteQuery articles swipes uid) = some taste ∧
      (apiFeed dist articles swipes uid rand1 rand2 js).Perm
        (smartQuery articles swipes uid (fun e => 1 - dist e taste) ++
          dumbQuery articles swipes uid
            ((smartQuery articles swipes uid (fun e => 1 - dist e taste)).map
              (fun a => a.id)) rand1) ∧
      (smartQuery articles swipes uid (fun e => 1 - dist e taste)).length ≤ 7 ∧
      (dumbQuery articles swipes uid
          ((smartQuery articles swipes uid (fun e => 1 - dist e taste)).map
            (fun a => a.id)) rand1).length ≤ 3 ∧
      (apiFeed dist articles swipes uid rand1 rand2 js).length ≤ 10 ∧
      (∀ a ∈ dumbQuery articles swipes uid
          ((smartQuery articles swipes uid (fun e => 1 - dist e taste)).map
            (fun a => a.id)) rand1,
        a.id ∉ (smartQuery articles swipes uid (fun e => 1 - dist e taste)).map
          (fun a => a.id)) ∧
      ((apiFeed dist articles swipes uid rand1 rand2 js).map (fun a => a.id)).Nodup ∧
      (∀ a ∈ apiFeed dist articles swipes uid rand1 rand2 js,
        a.id ∉ swipedIds swipes uid) := by
  have htq := tasteQuery_of_like articles swipes uid hlike
  obtain ⟨v0, vrest, hveq⟩ : ∃ v0 vrest,
      tasteQuery articles swipes uid = v0 :: vrest := by
    cases h : tasteQuery articles swipes uid with
    | nil => exact absurd h htq
    | cons v0 vrest => exact ⟨v0, vrest, rfl⟩
  obtain ⟨taste, htaste⟩ : ∃ t, averageVectors (tasteQuery articles swipes uid) = some t := by
    rw [hveq]; exact ⟨_, rfl⟩
  have hfeedwarm : apiFeed dist articles swipes uid rand1 rand2 js
      = warmFeed articles swipes uid (fun e => 1 - dist e taste) rand1 js := by
    unfold apiFeed
    rw [htaste]
  have hperm : (apiFeed dist articles swipes uid rand1 rand2 js).Perm
      (smartQuery articles swipes uid (fun e => 1 - dist e taste) ++
        dumbQuery articles swipes uid
          ((smartQuery articles swipes uid (fun e => 1 - dist e taste)).map
            (fun a => a.id)) rand1) := by
    rw [hfeedwarm]
    exact shuffleArray_perm js _
  have hslen : (smartQuery articles swipes uid (fun e => 1 - dist e taste)).length ≤ 7 := by
    unfold smartQuery
    rw [List.length_take]
    exact min_le_left _ _
  have hdlen : (dumbQuery articles swipes uid
      ((smartQuery articles swipes uid (fun e => 1 - dist e taste)).map
        (fun a => a.id)) rand1).length ≤ 3 := by
    unfold dumbQuery
    rw [List.length_take]
    exact min_le_left _ _
  have hlen10 : (apiFeed dist articles swipes uid rand1 rand2 js).length ≤ 10 := by
    have h2 := hperm.length_eq
    rw [List.length_append] at h2
    omega
  have hexcl : ∀ a ∈ dumbQuery articles swipes uid
      ((smartQuery articles swipes uid (fun e => 1 - dist e taste)).map
        (fun a => a.id)) rand1,
      a.id ∉ (smartQuery articles swipes uid (fun e => 1 - dist e taste)).map
        (fun a => a.id) := by
    intro a ha
    exact dumbExclusion_spec _ _
      (mem_dumbQuery articles swipes uid _ rand1 hrand1 a ha).2
  have hnodup2 : ((apiFeed dist articles swipes uid rand1 rand2 js).map
      (fun a => a.id)).Nodup := by
    have hs := smart_ids_nodup articles swipes uid (fun e => 1 - dist e taste) hnodup
    have hd := dumb_ids_nodup articles swipes uid
      ((smartQuery articles swipes uid (fun e => 1 - dist e taste)).map
        (fun a => a.id)) rand1 hrand1 hnodup
    have hdisj : List.Disjoint
        ((smartQuery articles swipes uid (fun e => 1 - dist e taste)).map
          (fun a => a.id))
        ((dumbQuery articles swipes uid
          ((smartQuery articles swipes uid (fun e => 1 - dist e taste)).map
            (fun a => a.id)) rand1).map (fun a => a.id)) := by
      intro x hx1 hx2
      obtain ⟨a, ha, hax⟩ := List.mem_map.mp hx2
      rw [← hax] at hx1
      exact hexcl a ha hx1
    have happend : (((smartQuery articles swipes uid (fun e => 1 - dist e taste) ++
        dumbQuery articles swipes uid
          ((smartQuery articles swipes uid (fun e => 1 - dist e taste)).map
            (fun a => a.id)) rand1)).map (fun a => a.id)).Nodup := by
      rw [List.map_append]
      exact List.nodup_append.mpr ⟨hs, hd, hdisj⟩
    exact ((hperm.map (fun a => a.id)).nodup_iff).mpr happend
  have hunsw : ∀ a ∈ apiFeed dist articles swipes uid rand1 rand2 js,
      a.id ∉ swipedIds swipes uid := by
    intro a ha
    have h2 := (hperm.mem_iff).mp ha
    rcases List.mem_append.mp h2 with hsm | hdm
    · exact mem_unswiped_not_swiped articles swipes uid a
        (mem_smartQuery_unswiped articles swipes uid _ a hsm)
    · exact mem_unswiped_not_swiped articles swipes uid a
        (mem_dumbQuery articles swipes uid _ rand1 hrand1 a hdm).1
  exact ⟨taste, htaste, hperm, hslen, hdlen, hlen10, hexcl, hnodup2, hunsw⟩

/-- Witness for C2: user 5 has liked article 1 of the three-article
corpus; the warm-path guarantees hold at these concrete inputs. -/
theorem warmFeed_blend_spec_witness :
    ∃ taste,
      averageVectors (tasteQuery feedArticles feedSwipes 5) = some taste ∧
      (apiFeed distConst feedArticles feedSwipes 5 idPerm idPerm []).Perm
        (smartQuery feedArticles feedSwipes 5 (fun e => 1 - distConst e taste) ++
          dumbQuery feedArticles feedSwipes 5
            ((smartQuery feedArticles feedSwipes 5 (fun e => 1 - distConst e taste)).map
              (fun a => a.id)) idPerm) ∧
      (smartQuery feedArticles feedSwipes 5 (fun e => 1 - distConst e taste)).length ≤ 7 ∧
      (dumbQuery feedArticles feedSwipes 5
          ((smartQuery feedArticles feedSwipes 5 (fun e => 1 - distConst e taste)).map
            (fun a => a.id)) idPerm).length ≤ 3 ∧
      (apiFeed distConst feedArticles feedSwipes 5 idPerm idPerm []).length ≤ 10 ∧
      (∀ a ∈ dumbQuery feedArticles feedSwipes 5
          ((smartQuery feedArticles feedSwipes 5 (fun e => 1 - distConst e taste)).map
            (fun a => a.id)) idPerm,
        a.id ∉ (smartQuery feedArticles feedSwipes 5 (fun e => 1 - distConst e taste)).map
          (fun a => a.id)) ∧
      ((apiFeed distConst feedArticles feedSwipes 5 idPerm idPerm []).map
        (fun a => a.id)).Nodup ∧
      (∀ a ∈ apiFeed distConst feedArticles feedSwipes 5 idPerm idPerm [],
        a.id ∉ swipedIds feedSwipes 5) :=
  warmFeed_blend_spec distConst feedArticles feedSwipes 5 idPerm idPerm []
    (by decide) (fun l => List.Perm.refl l)
    ⟨⟨5, 1, true, 10⟩, by decide, rfl, rfl, ⟨1, [1, 0]⟩, by decide, rfl⟩

/-- C3: for a user with zero liked articles, the feed handler takes
only the cold-start path — the result does not depend on the distance
operator, the smart-path ordering or the shuffle draws, no similarity
ranking happens — and it is the first `min 10 n` elements of a
randomized ordering of the `n` articles the user has never swiped. -/
theorem coldFeed_spec (articles : List Article) (swipes : List Swipe) (uid : Nat)
    (rand2 : List Article → List Article)
    (hrand2 : ∀ l, (rand2 l).Perm l)
    (hno : ∀ s ∈ swipes, s.user_id = uid → s.liked = false) :
    (∀ (dist : List ℚ → List ℚ → ℚ) (rand1 : List Article → List Article)
        (js : List Nat),
      apiFeed dist articles swipes uid rand1 rand2 js
        = coldFeed articles swipes uid rand2) ∧
    (coldFeed articles swipes uid rand2).length
      = min 10 (unswipedArticles articles swipes uid).length ∧
    (rand2 (unswipedArticles articles swipes uid)).Perm
      (unswipedArticles articles swipes uid) ∧
    coldFeed articles swipes uid rand2
      = (rand2 (unswipedArticles articles swipes uid)).take 10 := by
  have htq := tasteQuery_of_no_likes articles swipes uid hno
  refine ⟨?_, ?_, hrand2 _, rfl⟩
  · intro dist rand1 js
    unfold apiFeed
    rw [htq]
    rfl
  · unfold coldFeed
    rw [List.length_take, (hrand2 _).length_eq]

/-- Witness for C3: user 6 has one swipe, a dislike, so the cold path
is taken on the three-article corpus. -/
theorem coldFeed_spec_witness :
    apiFeed distConst feedArticles dislikeSwipes 6 idPerm idPerm []
        = coldFeed feedArticles dislikeSwipes 6 idPerm ∧
    (coldFeed feedArticles dislikeSwipes 6 idPerm).length
        = min 10 (unswipedArticles feedArticles dislikeSwipes 6).length ∧
    coldFeed feedArticles dislikeSwipes 6 idPerm
        = (idPerm (unswipedArticles feedArticles dislikeSwipes 6)).take 10 :=
  ⟨(coldFeed_spec feedArticles dislikeSwipes 6 idPerm (fun l => List.Perm.refl l)
      (by decide)).1 distConst idPerm [],
   (coldFeed_spec feedArticles dislikeSwipes 6 idPerm (fun l => List.Perm.refl l)
      (by decide)).2.1,
   (coldFeed_spec feedArticles dislikeSwipes 6 idPerm (fun l => List.Perm.refl l)
      (by decide)).2.2.2⟩

/- ### Lemmas for the decimal codec -/

theorem digVal_digChar (d : Nat) (hd : d < 10) : digVal (digChar d) = d := by
  interval_cases d <;> decide

theorem isDigitChar_digChar (d : Nat) (hd : d < 10) : isDigitChar (digChar d) = true := by
  interval_cases d <;> decide

theorem isDigitChar_ne (c : Char) (h : isDigitChar c = true) :
    c ≠ '.' ∧ c ≠ ',' ∧ c ≠ '-' ∧ c ≠ ']' := by
  refine ⟨?_, ?_, ?_, ?_⟩ <;> (intro he; rw [he] at h; exact absurd h (by decide))

theorem digitsFuel_lt : ∀ (fuel n : Nat), ∀ d ∈ digitsFuel fuel n, d < 10
  | 0, n => by simp [digitsFuel]
  | fuel + 1, n => by
    unfold digitsFuel
    by_cases h : n = 0
    · simp [h]
    · rw [if_neg h]
      intro d hd
      rcases List.mem_cons.mp hd with h1 | h2
      · subst h1; exact Nat.mod_lt n (by norm_num)
      · exact digitsFuel_lt fuel (n / 10) d h2

theorem ofDigits_digitsFuel : ∀ (fuel n : Nat), n ≤ fuel →
    Nat.ofDigits 10 (digitsFuel fuel n) = n
  | 0, n, h => by
    have h0 : n = 0 := Nat.le_zero.mp h
    simp [digitsFuel, h0, Nat.ofDigits_nil]
  | fuel + 1, n, h => by
    unfold digitsFuel
    by_cases h0 : n = 0
    · simp [h0, Nat.ofDigits_nil]
    · rw [if_neg h0, Nat.ofDigits_cons]
      have hlt : n / 10 < n := Nat.div_lt_self (Nat.pos_of_ne_zero h0) (by norm_num)
      rw [ofDigits_digitsFuel fuel (n / 10) (by omega)]
      omega

theorem digitsFuel_length : ∀ (fuel n k : Nat), n < 10 ^ k →
    (digitsFuel fuel n).length ≤ k
  | 0, n, k, _ => by simp [digitsFuel]
  | fuel + 1, n, k, h => by
    unfold digitsFuel
    by_cases h0 : n = 0
    · simp [h0]
    · rw [if_neg h0]
      cases k with
      | zero => simp at h; omega
      | succ k2 =>
        have hdiv : n / 10 < 10 ^ k2 := by
          rw [Nat.div_lt_iff_lt_mul (by norm_num : 0 < 10)]
          rw [pow_succ] at h
          exact h
        have := digitsFuel_length fuel (n / 10) k2 hdiv
        simp only [List.length_cons]
        omega

theorem ofDigits_natDigits (n : Nat) : Nat.ofDigits 10 (natDigits n) = n :=
  ofDigits_digitsFuel n n (Nat.le_refl n)

theorem natDigits_lt (n : Nat) : ∀ d ∈ natDigits n, d < 10 :=
  digitsFuel_lt n n

theorem natDigits_ne_nil (n : Nat) (h : n ≠ 0) : natDigits n ≠ [] := by
  unfold natDigits
  cases hn : n with
  | zero => exact absurd hn h
  | succ n2 => simp [digitsFuel, hn]

theorem natDigits_length (n k : Nat) (h : n < 10 ^ k) : (natDigits n).length ≤ k :=
  digitsFuel_length n n k h

theorem natToChars_ne_nil (n : Nat) : natToChars n ≠ [] := by
  unfold natToChars
  by_cases h : n = 0
  · simp [h]
  · rw [if_neg h]
    simp only [ne_eq, List.reverse_eq_nil_iff, List.map_eq_nil_iff]
    exact natDigits_ne_nil n h

theorem natToChars_digits (n : Nat) : ∀ c ∈ natToChars n, isDigitChar c = true := by
  unfold natToChars
  by_cases h : n = 0
  · rw [if_pos h]
    intro c hc
    have : c = '0' := by simpa using hc
    subst this
    decide
  · rw [if_neg h]
    intro c hc
    rw [List.mem_reverse] at hc
    obtain ⟨d, hd, rfl⟩ := List.mem_map.mp hc
    exact isDigitChar_digChar d (natDigits_lt n d hd)

theorem ofDigits_natToChars (n : Nat) :
    Nat.ofDigits 10 (((natToChars n).map digVal).reverse) = n := by
  unfold natToChars
  by_cases h : n = 0
  · rw [if_pos h, h]; decide
  · rw [if_neg h]
    rw [List.map_reverse, List.reverse_reverse, List.map_map]
    have h2 : (natDigits n).map (digVal ∘ digChar) = (natDigits n).map id :=
      List.map_congr_left (fun d hd => digVal_digChar d (natDigits_lt n d hd))
    rw [h2, List.map_id]
    exact ofDigits_natDigits n

theorem natFromChars_natToChars (n : Nat) : natFromChars (natToChars n) = some n := by
  unfold natFromChars
  rw [if_pos ⟨natToChars_ne_nil n, List.all_eq_true.mpr (natToChars_digits n)⟩]
  rw [ofDigits_natToChars n]

theorem ofDigits_replicate_zero : ∀ j : Nat, Nat.ofDigits 10 (List.replicate j 0) = 0
  | 0 => Nat.ofDigits_nil
  | j + 1 => by
    rw [List.replicate_succ, Nat.ofDigits_cons, ofDigits_replicate_zero j]

theorem natFromChars_pad (j m : Nat) :
    natFromChars (List.replicate j '0' ++ natToChars m) = some m := by
  have hall : (List.replicate j '0' ++ natToChars m).all isDigitChar = true := by
    rw [List.all_append]
    refine Bool.and_eq_true_iff.mpr ⟨?_, List.all_eq_true.mpr (natToChars_digits m)⟩
    refine List.all_eq_true.mpr ?_
    intro c hc
    rw [List.eq_of_mem_replicate hc]
    decide
  have hne : List.replicate j '0' ++ natToChars m ≠ [] := by
    intro hc
    exact natToChars_ne_nil m (List.append_eq_nil.mp hc).2
  unfold natFromChars
  rw [if_pos ⟨hne, hall⟩]
  congr 1
  rw [List.map_append, List.reverse_append, Nat.ofDigits_append]
  have hrep : ((List.replicate j '0').map digVal).reverse = List.replicate j (0 : Nat) := by
    rw [List.map_replicate, List.reverse_replicate]
    rfl
  rw [hrep, ofDigits_replicate_zero, ofDigits_natToChars]
  ring

theorem natToChars_length_le (m k : Nat) (hm : m < 10 ^ k) (hk : 1 ≤ k) :
    (natToChars m).length ≤ k := by
  unfold natToChars
  by_cases h : m = 0
  · rw [if_pos h]; simpa using hk
  · rw [if_neg h]
    simp only [List.length_reverse, List.length_map]
    exact natDigits_length m k hm

theorem fracChars_length (k m : Nat) (hm : m < 10 ^ k) (hk : 1 ≤ k) :
    (fracChars k m).length = k := by
  unfold fracChars
  rw [List.length_append, List.length_replicate]
  have := natToChars_length_le m k hm hk
  omega

theorem natFromChars_fracChars (k m : Nat) :
    natFromChars (fracChars k m) = some m :=
  natFromChars_pad _ m

theorem fracChars_digits (k m : Nat) : ∀ c ∈ fracChars k m, isDigitChar c = true := by
  intro c hc
  rcases List.mem_append.mp hc with h1 | h2
  · rw [List.eq_of_mem_replicate h1]; decide
  · exact natToChars_digits m c h2

theorem splitOnChar_sepFree (sep : Char) :
    ∀ p : List Char, (∀ c ∈ p, c ≠ sep) → splitOnChar sep p = [p]
  | [], _ => rfl
  | c :: p, h => by
    have h1 : c ≠ sep := h c (List.mem_cons_self c p)
    have h2 := splitOnChar_sepFree sep p (fun c2 hc2 => h c2 (List.mem_cons_of_mem c hc2))
    simp only [splitOnChar, h2, if_neg h1]

theorem splitOnChar_append (sep : Char) :
    ∀ (p r : List Char), (∀ c ∈ p, c ≠ sep) →
      splitOnChar sep (p ++ sep :: r) = p :: splitOnChar sep r
  | [], r, _ => by simp [splitOnChar]
  | c :: p, r, h => by
    have h1 : c ≠ sep := h c (List.mem_cons_self c p)
    have h2 := splitOnChar_append sep p r (fun c2 hc2 => h c2 (List.mem_cons_of_mem c hc2))
    simp only [List.cons_append, splitOnChar, List.append_eq, h2, if_neg h1]

theorem splitOnChar_joinComma :
    ∀ ps : List (List Char), ps ≠ [] → (∀ p ∈ ps, ∀ c ∈ p, c ≠ ',') →
      splitOnChar ',' (joinComma ps) = ps
  | [], h, _ => absurd rfl h
  | [p], _, h => splitOnChar_sepFree ',' p (h p (List.mem_cons_self p []))
  | p :: p2 :: ps, _, h => by
    show splitOnChar ',' (p ++ ',' :: joinComma (p2 :: ps)) = p :: p2 :: ps
    rw [splitOnChar_append ',' p _ (h p (List.mem_cons_self p _))]
    rw [splitOnChar_joinComma (p2 :: ps) (by simp)
      (fun q hq => h q (List.mem_cons_of_mem p hq))]

theorem decExp_of_finite (q : ℚ) (h : finiteDecimal q) :
    ∃ k, decExp q.den = some k ∧ q.den ∣ 10 ^ k := by
  have hmem : q.den ∈ List.range (q.den + 1) := List.mem_range.mpr (by omega)
  have hp : (10 ^ q.den % q.den == 0) = true := by
    rw [beq_iff_eq]
    exact Nat.dvd_iff_mod_eq_zero.mp h
  have hsome : (decExp q.den).isSome = true := by
    unfold decExp
    exact List.find?_isSome.mpr ⟨q.den, hmem, hp⟩
  obtain ⟨k, hk⟩ := Option.isSome_iff_exists.mp hsome
  refine ⟨k, hk, ?_⟩
  have h2 := List.find?_some hk
  rw [beq_iff_eq] at h2
  exact Nat.dvd_iff_mod_eq_zero.mpr h2

theorem encodePos_eq_zero (q : ℚ) (hk : decExp q.den = some 0) :
    encodePos q = natToChars (q.num.toNat * (10 ^ 0 / q.den)) := by
  simp [encodePos, hk]

theorem encodePos_eq_pos (q : ℚ) (k : Nat) (hk : decExp q.den = some k) (h0 : k ≠ 0) :
    encodePos q = natToChars (q.num.toNat * (10 ^ k / q.den) / 10 ^ k) ++
      '.' :: fracChars k (q.num.toNat * (10 ^ k / q.den) % 10 ^ k) := by
  simp [encodePos, hk, h0]

theorem encodePos_chars (q : ℚ) (k : Nat) (hk : decExp q.den = some k) :
    ∀ c ∈ encodePos q, isDigitChar c = true ∨ c = '.' := by
  by_cases h0 : k = 0
  · subst h0
    rw [encodePos_eq_zero q hk]
    intro c hc
    exact Or.inl (natToChars_digits _ c hc)
  · rw [encodePos_eq_pos q k hk h0]
    intro c hc
    rcases List.mem_append.mp hc with h1 | h2
    · exact Or.inl (natToChars_digits _ c h1)
    · rcases List.mem_cons.mp h2 with h3 | h4
      · exact Or.inr h3
      · exact Or.inl (fracChars_digits _ _ c h4)

theorem encodePos_ne_nil (q : ℚ) (k : Nat) (hk : decExp q.den = some k) :
    encodePos q ≠ [] := by
  by_cases h0 : k = 0
  · subst h0
    rw [encodePos_eq_zero q hk]
    exact natToChars_ne_nil _
  · rw [encodePos_eq_pos q k hk h0]
    intro hc
    exact List.noConfusion (List.append_eq_nil.mp hc).2

theorem encodeNum_chars (q : ℚ) (k k2 : Nat) (hk : decExp q.den = some k)
    (hkneg : decExp (-q).den = some k2) :
    ∀ c ∈ encodeNum q, isDigitChar c = true ∨ c = '.' ∨ c = '-' := by
  unfold encodeNum
  by_cases hq : q < 0
  · rw [if_pos hq]
    intro c hc
    rcases List.mem_cons.mp hc with h1 | h2
    · exact Or.inr (Or.inr h1)
    · rcases encodePos_chars (-q) k2 hkneg c h2 with h3 | h4
      · exact Or.inl h3
      · exact Or.inr (Or.inl h4)
  · rw [if_neg hq]
    intro c hc
    rcases encodePos_chars q k hk c hc with h3 | h4
    · exact Or.inl h3
    · exact Or.inr (Or.inl h4)

theorem parseNumPos_single (ds : List Char) (h : ∀ c ∈ ds, c ≠ '.') :
    parseNumPos ds = (natFromChars ds).map (fun n => (n : ℚ)) := by
  unfold parseNumPos
  rw [splitOnChar_sepFree '.' ds h]

theorem parseNumPos_double (ds fs : List Char) (hds : ∀ c ∈ ds, c ≠ '.')
    (hfs : ∀ c ∈ fs, c ≠ '.') :
    parseNumPos (ds ++ '.' :: fs) =
      match natFromChars ds, natFromChars fs with
      | some n, some f => some ((n : ℚ) + (f : ℚ) / 10 ^ fs.length)
      | _, _ => none := by
  unfold parseNumPos
  rw [splitOnChar_append '.' ds fs hds, splitOnChar_sepFree '.' fs hfs]

theorem parseNumPos_encodePos (q : ℚ) (hq : 0 ≤ q) (k : Nat)
    (hk : decExp q.den = some k) (hdvd : q.den ∣ 10 ^ k) :
    parseNumPos (encodePos q) = some q := by
  have hnumcast : ((q.num.toNat : ℚ)) = (q.num : ℚ) := by
    exact_mod_cast congrArg (fun z : ℤ => (z : ℚ))
      (Int.toNat_of_nonneg (Rat.num_nonneg.mpr hq))
  have hdnz : ((q.den : ℚ)) ≠ 0 := by
    exact_mod_cast q.den_nz
  have hnum_eq : (q.num : ℚ) = q * q.den := by
    have h1 := Rat.num_div_den q
    calc (q.num : ℚ) = (q.num : ℚ) / q.den * q.den := by
          rw [div_mul_cancel₀ _ hdnz]
      _ = q * q.den := by rw [h1]
  by_cases h0 : k = 0
  · subst h0
    have hden1 : q.den = 1 := Nat.dvd_one.mp (by simpa using hdvd)
    have hm : q.num.toNat * (10 ^ 0 / q.den) = q.num.toNat := by
      rw [hden1]; norm_num
    rw [encodePos_eq_zero q hk, hm]
    rw [parseNumPos_single (natToChars q.num.toNat)
      (fun c hc => (isDigitChar_ne c (natToChars_digits _ c hc)).1)]
    rw [natFromChars_natToChars]
    show some ((q.num.toNat : ℚ)) = some q
    congr 1
    rw [hnumcast, hnum_eq, hden1]
    push_cast
    ring
  · rw [encodePos_eq_pos q k hk h0]
    have hkpos : 1 ≤ k := Nat.pos_of_ne_zero h0
    have hppos : 0 < 10 ^ k := pow_pos (by norm_num) k
    have hmod : (q.num.toNat * (10 ^ k / q.den)) % 10 ^ k < 10 ^ k :=
      Nat.mod_lt _ hppos
    rw [parseNumPos_double (natToChars (q.num.toNat * (10 ^ k / q.den) / 10 ^ k))
      (fracChars k (q.num.toNat * (10 ^ k / q.den) % 10 ^ k))
      (fun c hc => (isDigitChar_ne c (natToChars_digits _ c hc)).1)
      (fun c hc => (isDigitChar_ne c (fracChars_digits _ _ c hc)).1)]
    rw [natFromChars_natToChars, natFromChars_fracChars]
    simp only
    congr 1
    rw [fracChars_length k _ hmod hkpos]
    have ht : q.den * (10 ^ k / q.den) = 10 ^ k := Nat.mul_div_cancel' hdvd
    have hq10 : ((10 : ℚ) ^ k) ≠ 0 := by positivity
    set m := q.num.toNat * (10 ^ k / q.den) with hmdef
    have key : ((m / 10 ^ k : ℕ) : ℚ) + ((m % 10 ^ k : ℕ) : ℚ) / 10 ^ k
        = ((m : ℕ) : ℚ) / 10 ^ k := by
      rw [eq_div_iff hq10, add_mul, div_mul_cancel₀ _ hq10]
      norm_cast
      rw [Nat.mul_comm]
      exact Nat.div_add_mod m (10 ^ k)
    rw [key]
    rw [div_eq_iff hq10]
    have hmcast : ((m : ℕ) : ℚ) = (q.num : ℚ) * ((10 ^ k / q.den : ℕ) : ℚ) := by
      rw [hmdef]
      push_cast
      rw [hnumcast]
    have htcast : ((q.den : ℚ)) * ((10 ^ k / q.den : ℕ) : ℚ) = (10 : ℚ) ^ k := by
      exact_mod_cast congrArg (fun n : ℕ => (n : ℚ)) ht
    rw [hmcast, hnum_eq, ← htcast]
    ring

theorem parseNum_encodeNum (q : ℚ) (h : finiteDecimal q) :
    parseNum (encodeNum q) = some q := by
  by_cases hq : q < 0
  · have hfd : finiteDecimal (-q) := by
      show (-q).den ∣ 10 ^ (-q).den
      rw [Rat.neg_den]
      exact h
    obtain ⟨k, hk, hdvd⟩ := decExp_of_finite (-q) hfd
    unfold encodeNum
    rw [if_pos hq]
    rw [show parseNum ('-' :: encodePos (-q))
        = Option.map (fun r => -r) (parseNumPos (encodePos (-q))) from rfl]
    rw [parseNumPos_encodePos (-q) (by linarith) k hk hdvd]
    simp
  · obtain ⟨k, hk, hdvd⟩ := decExp_of_finite q h
    unfold encodeNum
    rw [if_neg hq]
    obtain ⟨c, cs2, hcons⟩ : ∃ c cs2, encodePos q = c :: cs2 := by
      cases hEp : encodePos q with
      | nil => exact absurd hEp (encodePos_ne_nil q k hk)
      | cons c cs2 => exact ⟨c, cs2, rfl⟩
    have hcne : c ≠ '-' := by
      have hcmem : c ∈ encodePos q := by
        rw [hcons]; exact List.mem_cons_self c cs2
      rcases encodePos_chars q k hk c hcmem with hd | hdot
      · exact (isDigitChar_ne c hd).2.2.1
      · rw [hdot]; decide
    rw [hcons]
    rw [show parseNum (c :: cs2)
        = if c = '-' then Option.map (fun r => -r) (parseNumPos cs2)
          else parseNumPos (c :: cs2) from rfl]
    rw [if_neg hcne, ← hcons]
    exact parseNumPos_encodePos q (le_of_not_lt hq) k hk hdvd

theorem encodeNum_ne_nil (q : ℚ) (h : finiteDecimal q) : encodeNum q ≠ [] := by
  unfold encodeNum
  by_cases hq : q < 0
  · rw [if_pos hq]
    exact fun hc => List.noConfusion hc
  · rw [if_neg hq]
    obtain ⟨k, hk, _⟩ := decExp_of_finite q h
    exact encodePos_ne_nil q k hk

theorem encodeNum_no_comma (q : ℚ) (h : finiteDecimal q) :
    ∀ c ∈ encodeNum q, c ≠ ',' := by
  intro c hc
  obtain ⟨k, hk, _⟩ := decExp_of_finite q h
  have hfd : finiteDecimal (-q) := by
    show (-q).den ∣ 10 ^ (-q).den
    rw [Rat.neg_den]
    exact h
  obtain ⟨k2, hk2, _⟩ := decExp_of_finite (-q) hfd
  rcases encodeNum_chars q k k2 hk hk2 c hc with hd | hdot | hdash
  · exact (isDigitChar_ne c hd).2.1
  · rw [hdot]; decide
  · rw [hdash]; decide

theorem mapM_parseNum_encodeNum :
    ∀ xs : List ℚ, (∀ q ∈ xs, finiteDecimal q) →
      (xs.map encodeNum).mapM parseNum = some xs
  | [], _ => rfl
  | q :: xs, h => by
    rw [List.map_cons, List.mapM_cons]
    rw [parseNum_encodeNum q (h q (List.mem_cons_self q xs))]
    rw [mapM_parseNum_encodeNum xs (fun p hp => h p (List.mem_cons_of_mem q hp))]
    rfl

theorem joinComma_ne_nil (p : List Char) (ps : List (List Char)) (h : p ≠ []) :
    joinComma (p :: ps) ≠ [] := by
  cases ps with
  | nil => exact h
  | cons p2 ps2 =>
    show p ++ ',' :: joinComma (p2 :: ps2) ≠ []
    intro hc
    exact List.noConfusion (List.append_eq_nil.mp hc).2

/-- C8: an embedding vector of finite floats, encoded for persistence
as the bracketed comma-separated list ingestion writes
(`'[' + embedding.join(',') + ']'`) and parsed back as the
taste-profile reader does (`JSON.parse`), reproduces the original
vector exactly.  (Numbers are modelled as rationals with finite
decimal expansion, which covers the exact value of every finite
ECMAScript double; ECMAScript prints a double as its shortest decimal
that round-trips, so the scalar codec is exact, and the theorem shows
the vector-level encoding preserves every coordinate.) -/
theorem embedding_roundtrip_spec (xs : List ℚ) (h : ∀ q ∈ xs, finiteDecimal q) :
    parseVec (encodeVec xs) = some xs := by
  cases xs with
  | nil => rfl
  | cons q xs =>
    have hps : ∀ p ∈ (q :: xs).map encodeNum, ∀ c ∈ p, c ≠ ',' := by
      intro p hp c hc
      obtain ⟨r, hr, rfl⟩ := List.mem_map.mp hp
      exact encodeNum_no_comma r (h r hr) c hc
    show parseVec ('[' :: (joinComma ((q :: xs).map encodeNum) ++ [']'])) = some (q :: xs)
    rw [show parseVec ('[' :: (joinComma ((q :: xs).map encodeNum) ++ [']']))
        = if (joinComma ((q :: xs).map encodeNum) ++ [']']).getLast? = some ']' then
            (if (joinComma ((q :: xs).map encodeNum) ++ [']']).dropLast = [] then some []
             else (splitOnChar ','
               ((joinComma ((q :: xs).map encodeNum) ++ [']']).dropLast)).mapM parseNum)
          else none from rfl]
    rw [if_pos (List.getLast?_concat _), List.dropLast_concat]
    rw [List.map_cons]
    rw [if_neg (joinComma_ne_nil (encodeNum q) (xs.map encodeNum)
      (encodeNum_ne_nil q (h q (List.mem_cons_self q xs))))]
    rw [← List.map_cons]
    rw [splitOnChar_joinComma _ (by simp) hps]
    exact mapM_parseNum_encodeNum (q :: xs) h

/-- Witness for C8 at a concrete vector of finite decimals. -/
theorem embedding_roundtrip_spec_witness :
    parseVec (encodeVec [mkRat 5 1, mkRat (-1) 2, 0, mkRat 3 4]) =
      some [mkRat 5 1, mkRat (-1) 2, 0, mkRat 3 4] :=
  embedding_roundtrip_spec [mkRat 5 1, mkRat (-1) 2, 0, mkRat 3 4] (by decide)
